import Mathlib

/-!
# Verification of the phlooph static-site generator

Shallow embedding of the phlooph source (src/phlooph/__init__.py,
src/phlooph/models.py, src/phlooph/config.py) and proofs about it.

Filesystem paths are modelled as lists of path components (`Path.parts`
without the leading root), strings as Lean `String`s, and post texts as
lists of lines.  The configured roots (`SOURCE_DIR`, `DESTINATION_DIR`)
are parameters of the embedded functions, since in the source they are
constants derived from the user's home directory.
-/

namespace Phlooph

/-- A filesystem path: the list of its components, i.e. `Path.parts`. -/
abbrev FsPath := List String

/-- `str.endswith(suffix)`, computed on the character lists so that it
reduces in the kernel. -/
def strEndsWith (s suffix : String) : Bool := suffix.data.isSuffixOf s.data

/-- `models.Source.is_md` / `source.match("*.md")`: the pattern has no
slash, so `fnmatch` is applied to the final path component, and `*.md`
holds exactly when that component ends in `.md`. -/
def isMd (path : FsPath) : Bool := strEndsWith (path.getLastD "") ".md"

/-- `get_source_path_relative_to_source_dir` /
`Source.path_relative_to_source_dir`: `source.parts[len(SOURCE_DIR.parts):]`. -/
def path_relative_to_source_dir (srcRoot path : FsPath) : FsPath :=
  path.drop srcRoot.length

/-- `pathlib.Path.with_name`: replace the final path component. -/
def withName (path : FsPath) (name : String) : FsPath :=
  path.dropLast ++ [name]

/-- `get_destination` / `Source.destination`:
`DESTINATION_DIR / rel`, and for Markdown sources the name is replaced by
`index.html` via `with_name`. -/
def destination (srcRoot destRoot path : FsPath) : FsPath :=
  let destination_path := destRoot ++ path_relative_to_source_dir srcRoot path
  if isMd path then withName destination_path "index.html" else destination_path

/-- `s.dropRight 3` strips a trailing `.md` extension (only applied to
names that end in `.md`). -/
def stripMdExt (s : String) : String := s.dropRight 3

/-- Modelled from the spec's words, for comparison with `destination`:
for a Markdown file the destination is "a file named `index.html` inside a
same-named directory (extension stripped, title used as directory)" under
the destination root at the source's relative path; other paths preserve
the relative structure. -/
def destinationSpec (srcRoot destRoot path : FsPath) : FsPath :=
  let rel := path_relative_to_source_dir srcRoot path
  if isMd path then
    destRoot ++ rel.dropLast ++ [stripMdExt (rel.getLastD "")] ++ ["index.html"]
  else
    destRoot ++ rel

/-- For a source with a nonempty relative path, `destination` keeps the
relative directory and only replaces the final component. -/
lemma destination_md (srcRoot destRoot path : FsPath)
    (hmd : isMd path = true)
    (hne : path_relative_to_source_dir srcRoot path ≠ []) :
    destination srcRoot destRoot path =
      destRoot ++ (path_relative_to_source_dir srcRoot path).dropLast ++ ["index.html"] := by
  unfold destination withName
  rw [if_pos hmd, List.dropLast_append_of_ne_nil destRoot hne, List.append_assoc]

/-- C1: the claim expects `posts/post.md` to map to `posts/post/index.html`
(extension-stripped stem used as a directory); the code's `with_name`
replaces the final component, producing `posts/index.html` instead. -/
theorem destination_c1_counterexample :
    destination ["home", "user", "source-dir"] ["home", "user", "destination-dir"]
        ["home", "user", "source-dir", "posts", "post.md"] =
      ["home", "user", "destination-dir", "posts", "index.html"] ∧
    destinationSpec ["home", "user", "source-dir"] ["home", "user", "destination-dir"]
        ["home", "user", "source-dir", "posts", "post.md"] =
      ["home", "user", "destination-dir", "posts", "post", "index.html"] ∧
    destination ["home", "user", "source-dir"] ["home", "user", "destination-dir"]
        ["home", "user", "source-dir", "posts", "post.md"] ≠
      destinationSpec ["home", "user", "source-dir"] ["home", "user", "destination-dir"]
        ["home", "user", "source-dir", "posts", "post.md"] := by
  refine ⟨by decide, by decide, by decide⟩

/-- C1 (amended): for every Markdown source path (with a nonempty path
relative to the source root) the destination is a file named `index.html`
in the source's own relative directory under the destination root (the
file name is replaced, no stem directory is inserted); for every
non-Markdown path the destination preserves the relative structure. -/
theorem destination_c1_amended (srcRoot destRoot path : FsPath)
    (hne : path_relative_to_source_dir srcRoot path ≠ []) :
    (isMd path = true →
      destination srcRoot destRoot path =
        destRoot ++ (path_relative_to_source_dir srcRoot path).dropLast ++ ["index.html"]) ∧
    (isMd path = false →
      destination srcRoot destRoot path =
        destRoot ++ path_relative_to_source_dir srcRoot path) := by
  constructor
  · intro hmd
    exact destination_md srcRoot destRoot path hmd hne
  · intro hmd
    unfold destination
    rw [if_neg (by simp [hmd])]

/-- C1 amended theorem, evaluated at a concrete Markdown source and a
concrete asset source. -/
theorem destination_c1_amended_witness :
    (path_relative_to_source_dir ["src"] ["src", "posts", "post.md"] ≠ [] ∧
      destination ["src"] ["dst"] ["src", "posts", "post.md"] =
        ["dst"] ++ ["posts"] ++ ["index.html"]) ∧
    (path_relative_to_source_dir ["src"] ["src", "images", "image.png"] ≠ [] ∧
      destination ["src"] ["dst"] ["src", "images", "image.png"] =
        ["dst"] ++ ["images", "image.png"]) := by
  constructor
  · refine ⟨by decide, ?_⟩
    have h := destination_c1_amended ["src"] ["dst"] ["src", "posts", "post.md"] (by decide)
    exact h.1 (by decide)
  · refine ⟨by decide, ?_⟩
    have h := destination_c1_amended ["src"] ["dst"] ["src", "images", "image.png"] (by decide)
    exact h.2 (by decide)

/-- C6: two distinct Markdown posts in the same directory collide, because
`with_name` discards the distinguishing final component: `posts/a.md` and
`posts/b.md` both map to `posts/index.html`. -/
theorem destination_c6_counterexample :
    (["src", "posts", "a.md"] : FsPath) ≠ ["src", "posts", "b.md"] ∧
    destination ["src"] ["dst"] ["src", "posts", "a.md"] =
      destination ["src"] ["dst"] ["src", "posts", "b.md"] := by
  refine ⟨by decide, by decide⟩

/-- C6 (amended): the destination is a deterministic pure function of the
source path (repeated calls agree), and two Markdown post sources lying in
distinct relative directories have distinct destinations. -/
theorem destination_c6_amended (srcRoot destRoot p q : FsPath)
    (hp : isMd p = true) (hq : isMd q = true)
    (hpn : path_relative_to_source_dir srcRoot p ≠ [])
    (hqn : path_relative_to_source_dir srcRoot q ≠ [])
    (hdir : (path_relative_to_source_dir srcRoot p).dropLast ≠
      (path_relative_to_source_dir srcRoot q).dropLast) :
    destination srcRoot destRoot p ≠ destination srcRoot destRoot q ∧
    destination srcRoot destRoot p = destination srcRoot destRoot p := by
  refine ⟨?_, rfl⟩
  rw [destination_md srcRoot destRoot p hp hpn, destination_md srcRoot destRoot q hq hqn]
  intro h
  have h1 := List.append_cancel_right h
  exact hdir (List.append_cancel_left h1)

/-- C6 amended theorem, evaluated at two concrete posts in different
relative directories. -/
theorem destination_c6_amended_witness :
    destination ["src"] ["dst"] ["src", "posts", "one", "index.md"] ≠
      destination ["src"] ["dst"] ["src", "posts", "two", "index.md"] :=
  (destination_c6_amended ["src"] ["dst"]
    ["src", "posts", "one", "index.md"] ["src", "posts", "two", "index.md"]
    (by decide) (by decide) (by decide) (by decide) (by decide)).1

/-! ## Front matter and body extraction

Post texts are modelled as lists of lines, each line a list of
characters (the result of `text.splitlines()`). -/

/-- The ASCII whitespace characters removed by Python's `str.strip()`. -/
def isPySpace (c : Char) : Bool :=
  c == ' ' || c == '\t' || c == '\n' || c == '\r' || c == '\x0b' || c == '\x0c'

/-- Python `line.strip()`: drop leading and trailing whitespace. -/
def pyStrip (l : List Char) : List Char :=
  ((l.dropWhile isPySpace).reverse.dropWhile isPySpace).reverse

/-- The front-matter delimiter line `---`. -/
def dashes : List Char := "---".data

/-- Python `"\n".join(lines)`. -/
def joinNL : List (List Char) → List Char
  | [] => []
  | [l] => l
  | l :: l2 :: ls => l ++ '\n' :: joinNL (l2 :: ls)

/-- The loop of `get_front_matter_text` / `Post._get_front_matter_text`:
each line is stripped; a `---` before the flag is set turns the flag on; a
stripped non-`---` line with the flag on is collected; a `---` with the
flag on breaks the loop. -/
def front_matter_lines : List (List Char) → Bool → List (List Char)
  | [], _ => []
  | l :: ls, flag =>
    let line := pyStrip l
    if line = dashes then
      if flag then [] else front_matter_lines ls true
    else
      if flag then line :: front_matter_lines ls flag
      else front_matter_lines ls flag

/-- `get_front_matter_text` / `Post._get_front_matter_text`. -/
def get_front_matter_text (lines : List (List Char)) : List Char :=
  joinNL (front_matter_lines lines false)

/-- The loop of `get_source_text_excluding_front_matter` / `Post.text`:
every line whose strip equals `---` toggles the front-matter flag and is
skipped; lines under the flag are skipped; all other lines are kept
unstripped. -/
def lines_excluding_front_matter : List (List Char) → Bool → List (List Char)
  | [], _ => []
  | l :: ls, flag =>
    if pyStrip l = dashes then lines_excluding_front_matter ls (!flag)
    else if flag then lines_excluding_front_matter ls flag
    else l :: lines_excluding_front_matter ls flag

/-- `get_source_text_excluding_front_matter` / `Post.text`. -/
def get_source_text_excluding_front_matter (lines : List (List Char)) : List Char :=
  joinNL (lines_excluding_front_matter lines false)

/-- C8: a `---` line occurring later in the body re-enters front-matter
mode, so the text between a later pair of `---` lines is silently dropped:
on the lines `---`, `title: t`, `---`, `a`, `---`, `b`, `---`, `c` the
code's body is the join of `a` and `c` only, not the claimed join of `a`,
`---`, `b`, `---`, `c`; the dropped line `b` is not part of the extracted
front matter either. -/
theorem body_c8_bug :
    get_source_text_excluding_front_matter
        (List.map String.data ["---", "title: t", "---", "a", "---", "b", "---", "c"]) =
      "a\nc".data ∧
    get_source_text_excluding_front_matter
        (List.map String.data ["---", "title: t", "---", "a", "---", "b", "---", "c"]) ≠
      "a\n---\nb\n---\nc".data ∧
    get_front_matter_text
        (List.map String.data ["---", "title: t", "---", "a", "---", "b", "---", "c"]) =
      "title: t".data := by
  refine ⟨by decide, by decide, by decide⟩

lemma length_dropWhile_le (p : Char → Bool) (l : List Char) :
    (List.dropWhile p l).length ≤ l.length :=
  (List.dropWhile_sublist (p := p) (l := l)).length_le

lemma pyStrip_length_le (l : List Char) : (pyStrip l).length ≤ l.length := by
  unfold pyStrip
  rw [List.length_reverse]
  calc ((l.dropWhile isPySpace).reverse.dropWhile isPySpace).length
      ≤ (l.dropWhile isPySpace).reverse.length :=
        length_dropWhile_le isPySpace (l.dropWhile isPySpace).reverse
    _ = (l.dropWhile isPySpace).length := List.length_reverse _
    _ ≤ l.length := length_dropWhile_le isPySpace l

lemma dropWhile_eq_or_length_lt (p : Char → Bool) (l : List Char) :
    List.dropWhile p l = l ∨ (List.dropWhile p l).length < l.length := by
  cases l with
  | nil => exact Or.inl rfl
  | cons c cs =>
    rw [List.dropWhile_cons]
    by_cases hc : p c
    · right
      rw [if_pos hc]
      exact Nat.lt_succ_of_le (length_dropWhile_le p cs)
    · left
      rw [if_neg hc]

lemma pyStrip_length_lt (l : List Char) (h : pyStrip l ≠ l) :
    (pyStrip l).length < l.length := by
  rcases dropWhile_eq_or_length_lt isPySpace l with h1 | h1
  · rcases dropWhile_eq_or_length_lt isPySpace (l.dropWhile isPySpace).reverse with h2 | h2
    · exfalso
      apply h
      unfold pyStrip
      rw [h2, h1, List.reverse_reverse]
    · unfold pyStrip
      rw [List.length_reverse]
      rw [h1] at h2 ⊢
      rw [List.length_reverse] at h2
      exact h2
  · have h2 : ((l.dropWhile isPySpace).reverse.dropWhile isPySpace).length ≤
        (l.dropWhile isPySpace).length := by
      calc ((l.dropWhile isPySpace).reverse.dropWhile isPySpace).length
          ≤ (l.dropWhile isPySpace).reverse.length :=
            length_dropWhile_le isPySpace (l.dropWhile isPySpace).reverse
        _ = (l.dropWhile isPySpace).length := List.length_reverse _
    unfold pyStrip
    rw [List.length_reverse]
    omega

lemma joinNL_strip_le (fm : List (List Char)) :
    (joinNL (fm.map pyStrip)).length ≤ (joinNL fm).length := by
  induction fm with
  | nil => exact Nat.le_refl 0
  | cons l ls ih =>
    cases ls with
    | nil => simpa [joinNL] using pyStrip_length_le l
    | cons l2 ls2 =>
      simp only [List.map_cons, joinNL, List.length_append, List.length_cons]
      have := pyStrip_length_le l
      simp only [List.map_cons] at ih
      omega

lemma joinNL_strip_lt (fm : List (List Char)) (hex : ∃ l ∈ fm, pyStrip l ≠ l) :
    (joinNL (fm.map pyStrip)).length < (joinNL fm).length := by
  induction fm with
  | nil => simp at hex
  | cons l ls ih =>
    cases ls with
    | nil =>
      rcases hex with ⟨x, hx, hne⟩
      simp only [List.mem_singleton] at hx
      subst hx
      simpa [joinNL] using pyStrip_length_lt x hne
    | cons l2 ls2 =>
      simp only [List.map_cons, joinNL, List.length_append, List.length_cons]
      rcases hex with ⟨x, hx, hne⟩
      rcases List.mem_cons.mp hx with hx0 | hxr
      · subst hx0
        have h1 := pyStrip_length_lt x hne
        have h2 := joinNL_strip_le (l2 :: ls2)
        simp only [List.map_cons] at h2
        omega
      · have h1 := pyStrip_length_le l
        have h2 := ih ⟨x, hxr, hne⟩
        simp only [List.map_cons] at h2
        omega

lemma front_matter_lines_block (rest : List (List Char)) :
    ∀ fm : List (List Char), (∀ l ∈ fm, pyStrip l ≠ dashes) →
      front_matter_lines (fm ++ dashes :: rest) true = fm.map pyStrip := by
  intro fm
  induction fm with
  | nil =>
    intro _
    simp [front_matter_lines, show pyStrip dashes = dashes from by decide]
  | cons l ls ih =>
    intro h
    have hl : pyStrip l ≠ dashes := h l (List.mem_cons_self l ls)
    have ihh := ih fun x hx => h x (List.mem_cons_of_mem l hx)
    simp [front_matter_lines, hl, ihh]

/-- C10: the extraction strips leading and trailing whitespace from every
line between the delimiters before joining, so whenever the block contains
a line changed by stripping (an indented line), the extracted front-matter
text differs from the join of the original block lines. -/
theorem front_matter_c10 (fm rest : List (List Char))
    (hfm : ∀ l ∈ fm, pyStrip l ≠ dashes) :
    get_front_matter_text (dashes :: (fm ++ dashes :: rest)) = joinNL (fm.map pyStrip) ∧
    ((∃ l ∈ fm, pyStrip l ≠ l) →
      get_front_matter_text (dashes :: (fm ++ dashes :: rest)) ≠ joinNL fm) := by
  have hmain : get_front_matter_text (dashes :: (fm ++ dashes :: rest)) =
      joinNL (fm.map pyStrip) := by
    unfold get_front_matter_text
    rw [show front_matter_lines (dashes :: (fm ++ dashes :: rest)) false =
        front_matter_lines (fm ++ dashes :: rest) true from by
      simp [front_matter_lines, show pyStrip dashes = dashes from by decide]]
    rw [front_matter_lines_block rest fm hfm]
  refine ⟨hmain, fun hex heq => ?_⟩
  rw [hmain] at heq
  exact absurd (congrArg List.length heq) (Nat.ne_of_lt (joinNL_strip_lt fm hex))

/-- C10, evaluated at a concrete front-matter block with an indented line. -/
theorem front_matter_c10_witness :
    get_front_matter_text
        (dashes :: ([("tags:").data, ("  - Fake Tag").data] ++ dashes :: [("body").data])) =
      joinNL (List.map pyStrip [("tags:").data, ("  - Fake Tag").data]) ∧
    get_front_matter_text
        (dashes :: ([("tags:").data, ("  - Fake Tag").data] ++ dashes :: [("body").data])) ≠
      joinNL [("tags:").data, ("  - Fake Tag").data] := by
  have h := front_matter_c10 [("tags:").data, ("  - Fake Tag").data] [("body").data]
    (by decide)
  exact ⟨h.1, h.2 (by decide)⟩

/-! ## Front-matter field access

The YAML mapping returned by `yaml.load` is modelled as an association
list from string keys to values of an arbitrary type `α` (the parsed
YAML values). -/

/-- A parsed front-matter mapping. -/
abbrev FrontMatter (α : Type) := List (String × α)

/-- Python dictionary lookup (first binding of the key, if any). -/
def fmLookup {α : Type} : FrontMatter α → String → Option α
  | [], _ => none
  | (k, v) :: rest, key => if k = key then some v else fmLookup rest key

/-- A Python exception relevant here: `d[key]` raises `KeyError(key)`. -/
inductive PyErr where
  | keyError (key : String)
deriving DecidableEq

/-- Python `d[key]`: the value, or an uncaught `KeyError`. -/
def dictGetItem {α : Type} (d : FrontMatter α) (key : String) : Except PyErr α :=
  match fmLookup d key with
  | some v => Except.ok v
  | none => Except.error (PyErr.keyError key)

/-- `models.Post.title`: `self.front_matter["title"]`. -/
def post_title {α : Type} (fm : FrontMatter α) : Except PyErr α :=
  dictGetItem fm "title"

/-- `models.Post.date_published`: `self.front_matter["first-published"]`. -/
def post_date_published {α : Type} (fm : FrontMatter α) : Except PyErr α :=
  dictGetItem fm "first-published"

/-- Module-level `get_title`: `front_matter.get("title", None)` — uses
`.get` with a default, so it returns `None` and never raises. -/
def get_title {α : Type} (fm : FrontMatter α) : Except PyErr (Option α) :=
  Except.ok (fmLookup fm "title")

/-- Module-level `get_date_published`:
`front_matter.get("first-published", None)`. -/
def get_date_published {α : Type} (fm : FrontMatter α) : Except PyErr (Option α) :=
  Except.ok (fmLookup fm "first-published")

/-- C3: the claim says the module-level accessors also raise a lookup
error on a missing field; `get_title` on a front matter without `title`
instead returns `None` without raising (while `Post.title` does raise a
`KeyError`). -/
theorem title_c3_counterexample :
    get_title ([] : FrontMatter String) = Except.ok none ∧
    get_date_published ([] : FrontMatter String) = Except.ok none ∧
    post_title ([] : FrontMatter String) = Except.error (PyErr.keyError "title") ∧
    post_date_published ([] : FrontMatter String) =
      Except.error (PyErr.keyError "first-published") := by
  refine ⟨rfl, rfl, rfl, rfl⟩

/-- C3 (amended): when `title` or `first-published` is missing,
`Post.title` / `Post.date_published` raise an uncaught `KeyError`, while
the module-level `get_title` / `get_date_published` return `None` without
raising; when the field is present, its parsed value is returned by both. -/
theorem title_c3_amended {α : Type} (fm : FrontMatter α) :
    (fmLookup fm "title" = none →
      post_title fm = Except.error (PyErr.keyError "title") ∧
      get_title fm = Except.ok none) ∧
    (∀ v, fmLookup fm "title" = some v →
      post_title fm = Except.ok v ∧ get_title fm = Except.ok (some v)) ∧
    (fmLookup fm "first-published" = none →
      post_date_published fm = Except.error (PyErr.keyError "first-published") ∧
      get_date_published fm = Except.ok none) ∧
    (∀ v, fmLookup fm "first-published" = some v →
      post_date_published fm = Except.ok v ∧
      get_date_published fm = Except.ok (some v)) := by
  refine ⟨fun h => ⟨?_, ?_⟩, fun v h => ⟨?_, ?_⟩, fun h => ⟨?_, ?_⟩, fun v h => ⟨?_, ?_⟩⟩ <;>
    simp [post_title, post_date_published, get_title, get_date_published, dictGetItem, h]

/-- C3 amended theorem, evaluated at a front matter missing both fields
and at one carrying both. -/
theorem title_c3_amended_witness :
    (post_title ([] : FrontMatter String) = Except.error (PyErr.keyError "title") ∧
      get_title ([] : FrontMatter String) = Except.ok none) ∧
    (post_date_published [("title", "T"), ("first-published", "2020-12-17")] =
        Except.ok "2020-12-17" ∧
      get_date_published [("title", "T"), ("first-published", "2020-12-17")] =
        Except.ok (some "2020-12-17")) :=
  ⟨(title_c3_amended ([] : FrontMatter String)).1 rfl,
   (title_c3_amended [("title", "T"), ("first-published", "2020-12-17")]).2.2.2
     "2020-12-17" rfl⟩

/-! ## Excerpt extraction -/

/-- `config.EXCERPT_SEPARATOR`. -/
def EXCERPT_SEPARATOR : List Char := "<!-- read more -->".data

/-- Python `text.find(sub)` restricted to successful searches: the first
index at which `sub` starts in `text`, if any. -/
def findSub (sep : List Char) : List Char → Option Nat
  | [] => if sep.isEmpty then some 0 else none
  | c :: cs => if sep.isPrefixOf (c :: cs) then some 0 else (findSub sep cs).map (· + 1)

/-- Python `sub in text` for strings: substring containment. -/
def pyContains (sep text : List Char) : Bool := (findSub sep text).isSome

/-- Python `text.find(sub)`: first index, or `-1` when absent. -/
def pyFind (sep text : List Char) : Int :=
  match findSub sep text with
  | some i => (i : Int)
  | none => -1

/-- `models.Post.excerpt`: `None` when the separator is absent from the
body text, otherwise the markdown rendering (the external collaborator
`render`) of the text before the separator's position. -/
def post_excerpt (render : List Char → List Char) (text : List Char) : Option (List Char) :=
  if pyContains EXCERPT_SEPARATOR text = false then none
  else some (render (text.take (pyFind EXCERPT_SEPARATOR text).toNat))

lemma findSub_some_spec (sep : List Char) :
    ∀ (text : List Char) (i : Nat), findSub sep text = some i →
      sep.isPrefixOf (text.drop i) = true ∧
      ∀ j, j < i → sep.isPrefixOf (text.drop j) = false := by
  intro text
  induction text with
  | nil =>
    intro i h
    unfold findSub at h
    by_cases hsep : sep.isEmpty = true
    · rw [if_pos hsep] at h
      obtain rfl : (0 : Nat) = i := Option.some.inj h
      refine ⟨?_, fun j hj => absurd hj (Nat.not_lt_zero j)⟩
      rcases sep with _ | ⟨a, as⟩
      · rfl
      · simp [List.isEmpty] at hsep
    · rw [if_neg hsep] at h
      exact absurd h (by simp)
  | cons c cs ih =>
    intro i h
    unfold findSub at h
    by_cases hp : sep.isPrefixOf (c :: cs) = true
    · rw [if_pos hp] at h
      obtain rfl : (0 : Nat) = i := Option.some.inj h
      exact ⟨hp, fun j hj => absurd hj (Nat.not_lt_zero j)⟩
    · rw [if_neg hp] at h
      have hpf : sep.isPrefixOf (c :: cs) = false := Bool.eq_false_iff.mpr hp
      cases hfind : findSub sep cs with
      | none =>
        rw [hfind] at h
        exact absurd h (by simp)
      | some i2 =>
        rw [hfind] at h
        simp only [Option.map_some'] at h
        obtain rfl : i2 + 1 = i := Option.some.inj h
        obtain ⟨hocc, hmin⟩ := ih i2 hfind
        refine ⟨by simpa using hocc, fun j hj => ?_⟩
        cases j with
        | zero => simpa using hpf
        | succ j2 => simpa using hmin j2 (by omega)

lemma findSub_none_spec (sep : List Char) :
    ∀ text : List Char, findSub sep text = none →
      ∀ i, sep.isPrefixOf (text.drop i) = false := by
  intro text
  induction text with
  | nil =>
    intro h i
    unfold findSub at h
    by_cases hsep : sep.isEmpty = true
    · rw [if_pos hsep] at h
      exact absurd h (by simp)
    · rcases sep with _ | ⟨a, as⟩
      · simp [List.isEmpty] at hsep
      · simp [List.isPrefixOf]
  | cons c cs ih =>
    intro h i
    unfold findSub at h
    by_cases hp : sep.isPrefixOf (c :: cs) = true
    · rw [if_pos hp] at h
      exact absurd h (by simp)
    · rw [if_neg hp] at h
      have hrec : findSub sep cs = none := by
        cases hfind : findSub sep cs with
        | none => rfl
        | some i2 =>
          rw [hfind] at h
          exact absurd h (by simp)
      cases i with
      | zero => exact Bool.eq_false_iff.mpr hp
      | succ i2 => simpa using ih hrec i2

/-- C5: when the body text contains the separator, the excerpt is the
rendering of the text strictly before the first occurrence (the least
index at which the separator starts); when the separator does not occur,
the excerpt is `None` — in particular not `some` of the empty string. -/
theorem excerpt_c5 (render : List Char → List Char) (text : List Char) :
    (∀ i : Nat,
      EXCERPT_SEPARATOR.isPrefixOf (text.drop i) = true →
      (∀ j, j < i → EXCERPT_SEPARATOR.isPrefixOf (text.drop j) = false) →
      post_excerpt render text = some (render (text.take i))) ∧
    ((∀ i, EXCERPT_SEPARATOR.isPrefixOf (text.drop i) = false) →
      post_excerpt render text = none ∧ post_excerpt render text ≠ some []) := by
  constructor
  · intro i hocc hmin
    cases hfind : findSub EXCERPT_SEPARATOR text with
    | none =>
      exact absurd (findSub_none_spec EXCERPT_SEPARATOR text hfind i) (by simp [hocc])
    | some i0 =>
      obtain ⟨hocc0, hmin0⟩ := findSub_some_spec EXCERPT_SEPARATOR text i0 hfind
      obtain rfl : i = i0 := by
        rcases Nat.lt_trichotomy i i0 with hlt | heq | hgt
        · exact absurd hocc (by simp [hmin0 i hlt])
        · exact heq
        · exact absurd hocc0 (by simp [hmin i0 hgt])
      unfold post_excerpt pyContains pyFind
      rw [hfind]
      simp
  · intro hno
    cases hfind : findSub EXCERPT_SEPARATOR text with
    | none =>
      constructor
      · unfold post_excerpt pyContains
        rw [hfind]
        simp
      · unfold post_excerpt pyContains
        rw [hfind]
        simp
    | some i0 =>
      obtain ⟨hocc0, _⟩ := findSub_some_spec EXCERPT_SEPARATOR text i0 hfind
      exact absurd hocc0 (by simp [hno i0])

/-- C5, evaluated on a body containing the separator at index 5 and on a
short body without it. -/
theorem excerpt_c5_witness :
    post_excerpt id ("body <!-- read more --> rest".data) =
      some (id ("body <!-- read more --> rest".data.take 5)) ∧
    post_excerpt id ("hi".data) = none := by
  constructor
  · exact (excerpt_c5 id ("body <!-- read more --> rest".data)).1 5 (by decide)
      (by decide)
  · refine ((excerpt_c5 id ("hi".data)).2 ?_).1
    intro i
    match i with
    | 0 => decide
    | 1 => decide
    | (n + 2) =>
      rw [List.drop_eq_nil_of_le
        (le_trans (show ("hi".data).length ≤ 2 by decide) (by omega))]
      decide

/-! ## Tag slugging

Tags are modelled as lists of Unicode code points; `str.lower()` is
modelled on the ASCII range, which covers the tag alphabet the program
handles. -/

/-- ASCII `lower`: map `A`–`Z` (65–90) to `a`–`z` (97–122). -/
def lowerCode (n : Nat) : Nat := if 65 ≤ n ∧ n ≤ 90 then n + 32 else n

/-- Replace a space (32) with a hyphen (45). -/
def spaceToHyphen (n : Nat) : Nat := if n = 32 then 45 else n

/-- The slugging applied to each tag by `get_tags` / `Post.tags`:
`tag.lower().replace(" ", "-")`. -/
def slugTag (t : List Nat) : List Nat := (t.map lowerCode).map spaceToHyphen

/-- Code points of a string literal, for concrete slug evaluations. -/
def codePoints (s : String) : List Nat := s.data.map Char.toNat

lemma slugTag_pointwise (n : Nat) :
    spaceToHyphen (lowerCode (spaceToHyphen (lowerCode n))) =
      spaceToHyphen (lowerCode n) := by
  unfold lowerCode spaceToHyphen
  split_ifs <;> omega

/-- C9: slugging is idempotent, and both `"Django Rest Framework"` and
`"django rest framework"` slug to `django-rest-framework`. -/
theorem slug_c9 :
    (∀ t : List Nat, slugTag (slugTag t) = slugTag t) ∧
    slugTag (codePoints "Django Rest Framework") = codePoints "django-rest-framework" ∧
    slugTag (codePoints "django rest framework") = codePoints "django-rest-framework" := by
  refine ⟨fun t => ?_, by decide, by decide⟩
  induction t with
  | nil => rfl
  | cons n ns ih =>
    simp only [slugTag, List.map_cons] at ih ⊢
    rw [ih, slugTag_pointwise n]

/-! ## Pagination -/

/-- `config.POSTS_PER_PAGE`. -/
def POSTS_PER_PAGE : Nat := 10

/-- Append `post` to the page at index `i`, creating empty pages on the
way as `defaultdict(list)` does. -/
def appendAt {α : Type} : List (List α) → Nat → α → List (List α)
  | [], 0, post => [[post]]
  | [], n + 1, post => [] :: appendAt [] n post
  | pg :: pgs, 0, post => (pg ++ [post]) :: pgs
  | pg :: pgs, n + 1, post => pg :: appendAt pgs n post

/-- One iteration of the loop in `get_posts_by_page_number`: if the page
at the current index is full (`defaultdict` yields `[]` for an absent
index), step to the next page index; then append the post there. -/
def paginStep {α : Type} (P : Nat) (st : Nat × List (List α)) (post : α) :
    Nat × List (List α) :=
  if (st.2.getD st.1 []).length = P
  then (st.1 + 1, appendAt st.2 (st.1 + 1) post)
  else (st.1, appendAt st.2 st.1 post)

/-- `get_posts_by_page_number` applied to the date-descending flattened
post sequence, with the page size `P` standing for the configuration
constant `POSTS_PER_PAGE`; the resulting list holds the pages in
ascending page order (the dict's insertion order). -/
def get_posts_by_page_number {α : Type} (P : Nat) (posts : List α) : List (List α) :=
  (posts.foldl (paginStep P) (0, [])).2

/-- Reference chunking used in the proofs: fill the current page `cur`
(capacity `P`) with the remaining posts, opening a new page when full. -/
def fill {α : Type} (P : Nat) (cur : List α) : List α → List (List α)
  | [] => [cur]
  | x :: xs => if cur.length = P then cur :: fill P [x] xs else fill P (cur ++ [x]) xs

lemma getD_append_singleton {α : Type} (done : List (List α)) (cur : List α) :
    (done ++ [cur]).getD done.length [] = cur := by
  induction done with
  | nil => rfl
  | cons d ds ih =>
    rw [List.cons_append, List.length_cons]
    exact ih

lemma appendAt_last {α : Type} (done : List (List α)) (cur : List α) (x : α) :
    appendAt (done ++ [cur]) done.length x = done ++ [cur ++ [x]] := by
  induction done with
  | nil => rfl
  | cons d ds ih => simpa [appendAt] using ih

lemma appendAt_new {α : Type} (done : List (List α)) (cur : List α) (x : α) :
    appendAt (done ++ [cur]) (done.length + 1) x = done ++ [cur, [x]] := by
  induction done with
  | nil => rfl
  | cons d ds ih => simpa [appendAt] using ih

lemma foldl_paginStep {α : Type} (P : Nat) (hP : 0 < P) :
    ∀ (rest : List α) (done : List (List α)) (cur : List α),
      (∀ pg ∈ done, pg.length = P) → cur.length ≤ P →
      (rest.foldl (paginStep P) (done.length, done ++ [cur])).2 = done ++ fill P cur rest := by
  intro rest
  induction rest with
  | nil =>
    intro done cur _ _
    rfl
  | cons x xs ih =>
    intro done cur hdone hcur
    by_cases hfull : cur.length = P
    · have hstep : paginStep P (done.length, done ++ [cur]) x =
          (done.length + 1, done ++ [cur, [x]]) := by
        unfold paginStep
        simp only [getD_append_singleton, hfull, eq_self_iff_true, if_true]
        rw [appendAt_new]
      rw [show (x :: xs).foldl (paginStep P) (done.length, done ++ [cur]) =
          xs.foldl (paginStep P) (paginStep P (done.length, done ++ [cur]) x) from rfl]
      rw [hstep]
      have hsh : ((done.length + 1 : Nat), done ++ [cur, [x]]) =
          ((done ++ [cur]).length, (done ++ [cur]) ++ [[x]]) := by
        simp
      rw [hsh, ih (done ++ [cur]) [x]
        (fun pg hpg => by
          rcases List.mem_append.mp hpg with hmem | hmem
          · exact hdone pg hmem
          · simp only [List.mem_singleton] at hmem
            rw [hmem, hfull])
        (by simpa using hP)]
      simp only [fill, if_pos hfull, List.append_assoc, List.cons_append,
        List.nil_append, List.singleton_append]
    · have hlt : cur.length < P := Nat.lt_of_le_of_ne hcur hfull
      have hstep : paginStep P (done.length, done ++ [cur]) x =
          (done.length, done ++ [cur ++ [x]]) := by
        unfold paginStep
        simp only [getD_append_singleton, if_neg hfull]
        rw [appendAt_last]
      rw [show (x :: xs).foldl (paginStep P) (done.length, done ++ [cur]) =
          xs.foldl (paginStep P) (paginStep P (done.length, done ++ [cur]) x) from rfl]
      rw [hstep, ih done (cur ++ [x]) hdone (by simpa using hlt)]
      simp only [fill, if_neg hfull]

lemma fill_ne_nil {α : Type} (P : Nat) :
    ∀ (rest cur : List α), fill P cur rest ≠ [] := by
  intro rest
  induction rest with
  | nil => intro cur; simp [fill]
  | cons x xs ih =>
    intro cur
    simp only [fill]
    split_ifs
    · simp
    · exact ih (cur ++ [x])

lemma fill_flatten {α : Type} (P : Nat) :
    ∀ (rest cur : List α), (fill P cur rest).flatten = cur ++ rest := by
  intro rest
  induction rest with
  | nil => intro cur; simp [fill]
  | cons x xs ih =>
    intro cur
    simp only [fill]
    split_ifs
    · simp [ih [x]]
    · simp [ih (cur ++ [x])]

lemma fill_length {α : Type} (P : Nat) (hP : 0 < P) :
    ∀ (rest cur : List α), 0 < cur.length → cur.length ≤ P →
      (fill P cur rest).length = (cur.length + rest.length + P - 1) / P := by
  intro rest
  induction rest with
  | nil =>
    intro cur h0 hle
    have hdiv : (cur.length + ([] : List α).length + P - 1) / P = 1 :=
      Nat.div_eq_of_lt_le (by simp only [List.length_nil]; omega)
        (by simp only [List.length_nil]; omega)
    rw [hdiv]
    rfl
  | cons x xs ih =>
    intro cur h0 hle
    simp only [fill]
    split_ifs with hfull
    · rw [List.length_cons,
        ih [x] (by simp) (by simp only [List.length_singleton]; omega), hfull]
      have e1 : [x].length + xs.length + P - 1 = xs.length + P := by
        simp only [List.length_singleton]
        omega
      have e2 : P + (x :: xs).length + P - 1 = xs.length + P + P := by
        simp only [List.length_cons]
        omega
      rw [e1, e2, Nat.add_div_right (xs.length + P) hP, Nat.add_div_right xs.length hP]
    · have hlt : cur.length < P := Nat.lt_of_le_of_ne hle hfull
      rw [ih (cur ++ [x]) (by simp)
        (by simp only [List.length_append, List.length_singleton]; omega)]
      congr 1
      simp only [List.length_append, List.length_singleton, List.length_cons,
        List.length_nil]
      omega

lemma fill_dropLast {α : Type} (P : Nat) (hP : 0 < P) :
    ∀ (rest cur : List α), cur.length ≤ P →
      ∀ pg ∈ (fill P cur rest).dropLast, pg.length = P := by
  intro rest
  induction rest with
  | nil =>
    intro cur _ pg hpg
    simp [fill] at hpg
  | cons x xs ih =>
    intro cur hle pg hpg
    simp only [fill] at hpg
    split_ifs at hpg with hfull
    · rw [List.dropLast_cons_of_ne_nil (fill_ne_nil P xs [x])] at hpg
      rcases List.mem_cons.mp hpg with hmem | hmem
      · rw [hmem, hfull]
      · exact ih [x] (by simp only [List.length_singleton]; omega) pg hmem
    · exact ih (cur ++ [x]) (by simp; omega) pg hpg

lemma get_posts_eq_fill {α : Type} (P : Nat) (hP : 0 < P) (x : α) (xs : List α) :
    get_posts_by_page_number P (x :: xs) = fill P [x] xs := by
  unfold get_posts_by_page_number
  rw [show (x :: xs).foldl (paginStep P) ((0 : Nat), ([] : List (List α))) =
      xs.foldl (paginStep P) (paginStep P (0, []) x) from rfl]
  have hstep : paginStep P ((0 : Nat), ([] : List (List α))) x = (0, [[x]]) := by
    unfold paginStep
    rw [if_neg (by simpa using Nat.ne_of_lt hP)]
    rfl
  rw [hstep]
  have h := foldl_paginStep P hP xs ([] : List (List α)) [x] (by simp) (by simpa using hP)
  simpa using h

/-- C4: paginating N posts with page size P > 0 yields exactly
`⌈N / P⌉ = (N + P - 1) / P` pages, every page except possibly the last
holds exactly P posts, and concatenating the pages in ascending page
order reproduces the input sequence. -/
theorem pagination_c4 {α : Type} (P : Nat) (hP : 0 < P) (posts : List α) :
    (get_posts_by_page_number P posts).length = (posts.length + P - 1) / P ∧
    (∀ pg ∈ (get_posts_by_page_number P posts).dropLast, pg.length = P) ∧
    (get_posts_by_page_number P posts).flatten = posts := by
  cases posts with
  | nil =>
    refine ⟨?_, ?_, rfl⟩
    · show (0 : Nat) = (0 + P - 1) / P
      rw [Nat.div_eq_of_lt (by omega)]
    · intro pg hpg
      simp [get_posts_by_page_number] at hpg
  | cons x xs =>
    rw [get_posts_eq_fill P hP x xs]
    refine ⟨?_, fill_dropLast P hP xs [x] (by simpa using hP),
      by simp [fill_flatten P xs [x]]⟩
    rw [fill_length P hP xs [x] (by simp) (by simpa using hP)]
    congr 1
    simp only [List.length_singleton, List.length_cons, List.length_nil]
    omega

/-- C4, evaluated at the configured page size 10 on 23 posts: three pages
that concatenate back to the input. -/
theorem pagination_c4_witness :
    0 < POSTS_PER_PAGE ∧
    (get_posts_by_page_number POSTS_PER_PAGE (List.range 23)).length =
      ((List.range 23).length + POSTS_PER_PAGE - 1) / POSTS_PER_PAGE ∧
    (get_posts_by_page_number POSTS_PER_PAGE (List.range 23)).flatten = List.range 23 :=
  ⟨by decide,
   (pagination_c4 POSTS_PER_PAGE (by decide) (List.range 23)).1,
   (pagination_c4 POSTS_PER_PAGE (by decide) (List.range 23)).2.2⟩

/-! ## Page generation effects and dry-run

Each page-generation function is embedded as the list of externally
visible events it performs, in program order: directory creation,
template rendering (the external collaborator call `template.render`),
and file writes. -/

/-- An observable effect of a generation function. -/
inductive FsEvent where
  | mkdirEvt : FsPath → FsEvent
  | renderEvt : String → FsEvent
  | writeEvt : FsPath → FsEvent
deriving DecidableEq

/-- `create_tag_index`: the source guards the mkdir/render/write block
with `if dry_run:` — the block runs exactly when `dry_run` is true. -/
def create_tag_index (destRoot : FsPath) (dry_run : Bool) : List FsEvent :=
  let tags_path := destRoot ++ ["tags", "index.html"]
  if dry_run then
    [FsEvent.mkdirEvt tags_path.dropLast, FsEvent.renderEvt "tags.html",
     FsEvent.writeEvt tags_path]
  else []

/-- `create_page_per_tag`: for each tag, the mkdir and the write (whose
argument evaluates `template.render`) run under `if not dry_run:`. -/
def create_page_per_tag (destRoot : FsPath) (tags : List String) (dry_run : Bool) :
    List FsEvent :=
  (tags.map fun tag =>
    if dry_run then []
    else
      [FsEvent.mkdirEvt (destRoot ++ ["tags", tag]),
       FsEvent.renderEvt "tag.html",
       FsEvent.writeEvt (destRoot ++ ["tags", tag, "index.html"])]).flatten

/-- The output path of index page `page` in `paginate`: page 0 is the
site root, later pages live under `pages/<n>/`. -/
def page_path (destRoot : FsPath) (page : Nat) : FsPath :=
  if page = 0 then destRoot ++ ["index.html"]
  else destRoot ++ ["pages", toString page, "index.html"]

/-- `paginate`: for each page, the mkdir and the write (whose argument
evaluates `template.render`) run under `if not dry_run:`. -/
def paginate (destRoot : FsPath) (pages : List Nat) (dry_run : Bool) : List FsEvent :=
  (pages.map fun page =>
    if dry_run then []
    else
      [FsEvent.mkdirEvt (page_path destRoot page).dropLast,
       FsEvent.renderEvt "page.html",
       FsEvent.writeEvt (page_path destRoot page)]).flatten

/-- `create_page_from_markdown`: `get_rendered_markdown` runs before the
guard, so rendering happens even when `dry_run` is set; the mkdir and
write run under `if not dry_run:`. -/
def create_page_from_markdown (dest : FsPath) (dry_run : Bool) : List FsEvent :=
  FsEvent.renderEvt "post.html" ::
    (if dry_run then [] else [FsEvent.mkdirEvt dest.dropLast, FsEvent.writeEvt dest])

/-- `copy_verbatim`: the byte copy runs under `if not dry_run:`. -/
def copy_verbatim (dest : FsPath) (dry_run : Bool) : List FsEvent :=
  if dry_run then [] else [FsEvent.writeEvt dest]

/-- Whether an event is a filesystem mutation (write or mkdir). -/
def FsEvent.isMutation : FsEvent → Bool
  | FsEvent.mkdirEvt _ => true
  | FsEvent.writeEvt _ => true
  | FsEvent.renderEvt _ => false

/-- C2: the dry-run flag does not suppress all writes — `create_tag_index`
writes the tag index exactly when `dry_run` is true (inverted guard), and
skips the write on a normal run; moreover under dry-run the tag pages and
index pages perform no rendering at all, contrary to the claim that
rendering is still carried out. -/
theorem dry_run_c2_bug :
    FsEvent.writeEvt ["dst", "tags", "index.html"] ∈ create_tag_index ["dst"] true ∧
    create_tag_index ["dst"] false = [] ∧
    create_page_per_tag ["dst"] ["python"] true = [] ∧
    paginate ["dst"] [0, 1] true = [] ∧
    create_page_per_tag ["dst"] ["python"] false =
      [FsEvent.mkdirEvt ["dst", "tags", "python"], FsEvent.renderEvt "tag.html",
       FsEvent.writeEvt ["dst", "tags", "python", "index.html"]] ∧
    create_page_from_markdown ["dst", "posts", "index.html"] true =
      [FsEvent.renderEvt "post.html"] := by
  refine ⟨by decide, rfl, rfl, rfl, rfl, rfl⟩

/-! ## Orchestrator phases and CLI flags -/

/-- The generation phases named by the spec. -/
inductive Phase where
  | render
  | paginate
  | tag
  | feed
deriving DecidableEq

/-- `main`: after parsing arguments and configuring logging it calls
`render(args.dry_run)`, `paginate(args.dry_run)`, `tag(args.dry_run)` —
and nothing else. -/
def main_phases : List Phase := [Phase.render, Phase.paginate, Phase.tag]

/-- The option strings registered by `get_args` on the argument handler:
`--verbose` / `-v` (counted verbosity) and `--dry-run` / `-d`. -/
def cli_flags : List String := ["--verbose", "-v", "--dry-run", "-d"]

/-- `s.startswith(pre)`, computed on the character lists. -/
def strStartsWith (s pre : String) : Bool := pre.data.isPrefixOf s.data

/-- C7: the orchestrator runs only three phases — feed generation is
absent from `main` — and the CLI defines no skip flags at all (only
verbosity and dry-run), although the repository's own test
`test_phlooph.test_main` expects `generate_feeds` to be called and
`skip_*` argument attributes to exist. -/
theorem main_c7_bug :
    main_phases = [Phase.render, Phase.paginate, Phase.tag] ∧
    Phase.feed ∉ main_phases ∧
    cli_flags.filter (fun f => strStartsWith f "--skip") = [] ∧
    cli_flags = ["--verbose", "-v", "--dry-run", "-d"] := by
  refine ⟨rfl, by decide, by decide, rfl⟩

end Phlooph
